import Mathlib

/-! # Verification of the Symphony metrics pipeline

Symphony is a Playwright extension that collects per-request timing
metrics during browser tests.  This file gives a shallow embedding of
its metrics data model and aggregation pipeline:

* the request tracker handlers `trackRequestStart` / `trackRequestEnd`
  of `src/symphony.ts`;
* the per-test summary `getSummary` of `src/symphony.ts`;
* the JSON reporter callbacks `onMetricsCollected` / `onTestComplete`
  and the session rollup `generateSessionSummary` of
  `src/reporters/json-reporter.ts`.

Modelling conventions.  JS numbers standing for times and durations are
modelled as rationals; the value `Infinity` (the initial `minDuration`)
gets an explicit constructor.  Counts are naturals, status codes and
byte sizes are integers.  JS objects used as counter maps are modelled
as insertion-ordered association lists, which matches JS object update
semantics: an existing key is updated in place, a new key is appended.
All functions are total, mirroring the fact that the corresponding
source functions cannot throw on any input considered here.
-/

/-- A JS number as it occurs in this pipeline: a finite rational or
positive `Infinity` (`NaN` never arises in the modelled code paths). -/
inductive JNum where
  | fin (q : ℚ)
  | inf
deriving DecidableEq

/-- JS `Math.min` on the numbers of this pipeline: `Infinity` is neutral. -/
def JNum.min : JNum → JNum → JNum
  | .inf, b => b
  | .fin a, .inf => .fin a
  | .fin a, .fin b => .fin (Min.min a b)

/-- Whether a JS number is finite (not the `Infinity` sentinel). -/
def JNum.isFinite : JNum → Bool
  | .fin _ => true
  | .inf => false

/-- The numeric order on JS numbers, with `Infinity` at the top. -/
def JNum.le : JNum → JNum → Bool
  | _, .inf => true
  | .inf, .fin _ => false
  | .fin a, .fin b => decide (a ≤ b)

/-- JS `Math.round` on a nonnegative JS number: round half away from zero,
which for the nonnegative values of this pipeline is `⌊q + 1/2⌋`. -/
def jsRound (q : ℚ) : ℤ := ⌊q + 1/2⌋

/-- A JS object used as a counter map: an insertion-ordered association
list.  (`m[k] = (m[k] || 0) + c` updates an existing key in place and
appends a missing key at the end.) -/
abbrev CountMap (K : Type) := List (K × ℕ)

/-- Reading `m[k] || 0` from a counter object. -/
def CountMap.get {K : Type} [DecidableEq K] : CountMap K → K → ℕ
  | [], _ => 0
  | p :: rest, k => if p.1 = k then p.2 else CountMap.get rest k

/-- The JS statement `m[k] = (m[k] || 0) + c`. -/
def CountMap.incrBy {K : Type} [DecidableEq K] : CountMap K → K → ℕ → CountMap K
  | [], k, c => [(k, c)]
  | p :: rest, k, c =>
    if p.1 = k then (p.1, p.2 + c) :: rest else p :: CountMap.incrBy rest k c

/-- The JS statement `m[k] = (m[k] || 0) + 1`. -/
def CountMap.incr {K : Type} [DecidableEq K] (m : CountMap K) (k : K) : CountMap K :=
  m.incrBy k 1

/-- Additive merge of the session rollup: `Object.entries(src).forEach(([k, c]) => { m[k] = (m[k] || 0) + c })`:
the additive merge used by the session rollup. -/
def CountMap.addAll {K : Type} [DecidableEq K] (m src : CountMap K) : CountMap K :=
  src.foldl (fun acc p => acc.incrBy p.1 p.2) m

/-- Total count stored at key `k`, counting every pair with that key. -/
def CountMap.weight {K : Type} [DecidableEq K] (m : CountMap K) (k : K) : ℕ :=
  (m.map (fun p => if p.1 = k then p.2 else 0)).sum

/-- Sum of all counts stored in a counter object. -/
def CountMap.total {K : Type} (m : CountMap K) : ℕ :=
  (m.map Prod.snd).sum

/-- The `timing` detail stored on a metric record by `trackRequestStart`
(`src/symphony.ts`, the nested `timing` object literal). -/
structure TimingDetail where
  dnsStart : ℚ
  dnsEnd : ℚ
  connectStart : ℚ
  connectEnd : ℚ
  sslStart : ℚ
  sslEnd : ℚ
  requestStart : ℚ
  requestEnd : ℚ
  responseStart : ℚ
  responseEnd : ℚ
deriving DecidableEq

/-- The fields of Playwright's `request.timing()` that the tracker reads. -/
structure PwTiming where
  startTime : ℚ
  domainLookupStart : ℚ
  domainLookupEnd : ℚ
  connectStart : ℚ
  connectEnd : ℚ
  secureConnectionStart : ℚ
  requestStart : ℚ
  responseStart : ℚ
  responseEnd : ℚ
deriving DecidableEq

/-- Structure `RequestMetrics` of `src/types.ts`, with the extra fields the tracker
actually writes (`headers`, `timing`). -/
structure RequestMetrics where
  url : String
  method : String
  startTime : ℚ
  endTime : ℚ
  duration : ℚ
  status : ℤ
  requestSize : ℤ
  responseSize : ℤ
  headers : List (String × String)
  timing : TimingDetail
deriving DecidableEq

/-- The data of a Playwright `request` event consumed by `trackRequestStart`. -/
structure RequestEvent where
  url : String
  method : String
  headers : List (String × String)
  timing : PwTiming
deriving DecidableEq

/-- The data of a Playwright `response` event consumed by `trackRequestEnd`:
the response carries its request (url, method, timing, post data) plus the
status and the optional `content-length` header.  `postDataLen = none`
models `request.postData()` being `null`; `contentLength = none` models a
missing (or empty, hence falsy) `content-length` header. -/
structure ResponseEvent where
  url : String
  method : String
  timing : PwTiming
  status : ℤ
  postDataLen : Option ℕ
  contentLength : Option ℤ
deriving DecidableEq

/-- The record pushed by `trackRequestStart` (`src/symphony.ts` lines
168-190): pending, with `endTime = duration = status = 0`.  Note the
source maps `sslEnd` to `timing.connectEnd`. -/
def newRecord (req : RequestEvent) : RequestMetrics where
  url := req.url
  method := req.method
  startTime := req.timing.startTime
  endTime := 0
  duration := 0
  status := 0
  requestSize := 0
  responseSize := 0
  headers := req.headers
  timing :=
    { dnsStart := req.timing.domainLookupStart
      dnsEnd := req.timing.domainLookupEnd
      connectStart := req.timing.connectStart
      connectEnd := req.timing.connectEnd
      sslStart := req.timing.secureConnectionStart
      sslEnd := req.timing.connectEnd
      requestStart := req.timing.requestStart
      requestEnd := req.timing.responseStart
      responseStart := req.timing.responseStart
      responseEnd := req.timing.responseEnd }

/-- Handler `Symphony.trackRequestStart`: append a fresh pending record. -/
def trackRequestStart (metrics : List RequestMetrics) (req : RequestEvent) :
    List RequestMetrics :=
  metrics ++ [newRecord req]

/-- The mutation performed on a found record by `trackRequestEnd`
(`src/symphony.ts` lines 200-207): completion fields are overwritten from
the response event, all other fields are kept. -/
def applyResponse (m : RequestMetrics) (resp : ResponseEvent) : RequestMetrics :=
  { m with
    endTime := resp.timing.responseEnd
    duration := resp.timing.responseEnd - resp.timing.startTime
    status := resp.status
    requestSize := (resp.postDataLen.getD 0 : ℤ)
    responseSize := resp.contentLength.getD 0 }

/-- Handler `Symphony.trackRequestEnd` restricted to the tracker state: find the
first record whose `url` and `method` match the response's request and
overwrite its completion fields; if none matches, do nothing.  (The
handler additionally forwards the metrics list to the reporter, modelled
separately by `JsonReporter.onMetricsCollected`.) -/
def trackRequestEnd (resp : ResponseEvent) : List RequestMetrics → List RequestMetrics
  | [] => []
  | m :: rest =>
    if m.url = resp.url ∧ m.method = resp.method then applyResponse m resp :: rest
    else m :: trackRequestEnd resp rest

/-- Structure `MetricsSummary` of `src/types.ts`.  `averageDuration` and
`maxDuration` are always finite in the source, so they stay rational;
`minDuration` is initialised to `Infinity` and hence gets the extended
type. -/
structure MetricsSummary where
  totalRequests : ℕ
  averageDuration : ℚ
  minDuration : JNum
  maxDuration : ℚ
  requestsByStatus : CountMap ℤ
  requestsByMethod : CountMap String
deriving DecidableEq

/-- The filter `metric.duration > 0` selecting completed records. -/
def isCompleted (m : RequestMetrics) : Bool := decide (0 < m.duration)

/-- One iteration of the `forEach` loop in `Symphony.getSummary`
(`src/symphony.ts` lines 237-251): the accumulator is the summary under
construction together with the `completedRequests` counter. -/
def summaryStep (acc : MetricsSummary × ℕ) (m : RequestMetrics) : MetricsSummary × ℕ :=
  if isCompleted m then
    ({ acc.1 with
        averageDuration := acc.1.averageDuration + m.duration
        minDuration := acc.1.minDuration.min (.fin m.duration)
        maxDuration := Max.max acc.1.maxDuration m.duration
        requestsByStatus := acc.1.requestsByStatus.incr m.status
        requestsByMethod := acc.1.requestsByMethod.incr m.method },
      acc.2 + 1)
  else acc

/-- Function `Symphony.getSummary` (`src/symphony.ts` lines 223-260) as a pure
function of the collected metrics: `totalRequests` counts the whole
list, the loop accumulates over completed records only, and the average
is rounded at the end iff at least one record completed.  (The source
additionally forwards the summary to the reporter; that combined step is
`symphonyGetSummary` below.) -/
def getSummary (metrics : List RequestMetrics) : MetricsSummary :=
  let init : MetricsSummary :=
    { totalRequests := metrics.length
      averageDuration := 0
      minDuration := .inf
      maxDuration := 0
      requestsByStatus := []
      requestsByMethod := [] }
  let r := metrics.foldl summaryStep (init, 0)
  if 0 < r.2 then
    { r.1 with averageDuration := ((jsRound (r.1.averageDuration / (r.2 : ℚ)) : ℤ) : ℚ) }
  else r.1

/-- Durations of the completed records, in list order. -/
def completedDurations (metrics : List RequestMetrics) : List ℚ :=
  (metrics.filter isCompleted).map RequestMetrics.duration

/-- Number of completed records. -/
def completedCount (metrics : List RequestMetrics) : ℕ :=
  (metrics.filter isCompleted).length

/-- One `{ metrics, summary }` value of the reporter's session map. -/
structure SessionEntry where
  metrics : List RequestMetrics
  summary : MetricsSummary
deriving DecidableEq

/-- One element of `sessionSummary.testResults`
(`src/reporters/json-reporter.ts` lines 266-274). -/
structure TestResult where
  testName : String
  totalRequests : ℕ
  averageDuration : ℚ
  minDuration : JNum
  maxDuration : ℚ
  requestsByStatus : CountMap ℤ
  requestsByMethod : CountMap String
deriving DecidableEq

/-- The session summary object built by
`JsonReporter.generateSessionSummary`. -/
structure SessionSummary where
  totalTests : ℕ
  totalRequests : ℕ
  averageDuration : ℚ
  minDuration : JNum
  maxDuration : ℚ
  requestsByStatus : CountMap ℤ
  requestsByMethod : CountMap String
  testResults : List TestResult
deriving DecidableEq

/-- One iteration of the `sessionMetrics.forEach` loop in
`JsonReporter.generateSessionSummary` (`src/reporters/json-reporter.ts`
lines 242-275).  The accumulator carries the session summary under
construction plus the `totalDuration` and `totalCompletedRequests`
locals (the latter counts tests with a positive average). -/
def sessionStep (acc : SessionSummary × ℚ × ℕ) (e : String × SessionEntry) :
    SessionSummary × ℚ × ℕ :=
  let sm := e.2.summary
  let ss := { acc.1 with
    totalRequests := acc.1.totalRequests + sm.totalRequests
    minDuration := acc.1.minDuration.min sm.minDuration
    maxDuration := Max.max acc.1.maxDuration sm.maxDuration
    requestsByStatus := acc.1.requestsByStatus.addAll sm.requestsByStatus
    requestsByMethod := acc.1.requestsByMethod.addAll sm.requestsByMethod
    testResults := acc.1.testResults ++
      [{ testName := e.1
         totalRequests := sm.totalRequests
         averageDuration := sm.averageDuration
         minDuration := sm.minDuration
         maxDuration := sm.maxDuration
         requestsByStatus := sm.requestsByStatus
         requestsByMethod := sm.requestsByMethod }] }
  if 0 < sm.averageDuration then (ss, acc.2.1 + sm.averageDuration, acc.2.2 + 1)
  else (ss, acc.2.1, acc.2.2)

/-- Function `JsonReporter.generateSessionSummary` as a pure function of the
session map contents (an insertion-ordered list of
test name / entry pairs, mirroring JS `Map` iteration order):
`totalTests` is the map size, the loop folds over the entries, and the
average is rounded iff some test had a positive average. -/
def generateSessionSummary (entries : List (String × SessionEntry)) : SessionSummary :=
  let init : SessionSummary :=
    { totalTests := entries.length
      totalRequests := 0
      averageDuration := 0
      minDuration := .inf
      maxDuration := 0
      requestsByStatus := []
      requestsByMethod := []
      testResults := [] }
  let r := entries.foldl sessionStep (init, 0, 0)
  if 0 < r.2.2 then
    { r.1 with averageDuration := ((jsRound (r.2.1 / (r.2.2 : ℚ)) : ℤ) : ℚ) }
  else r.1

/-- An attempted file write of the JSON reporter, abstracted to which
artifact is written.  (Write failures are caught and logged in the
source; the modelled state transition is the same either way.) -/
inductive WriteEvent where
  | readme
  | metricsFile (testName : String)
  | summaryFile (testName : String)
  | sessionSummaryFile
deriving DecidableEq

/-- The mutable state of `JsonReporter` relevant to the claims:
the current test name, the metrics list last received via
`onMetricsCollected`, whether the session directory has been created,
and the session map (insertion-ordered, keyed by test name). -/
structure ReporterState where
  currentTestName : String
  currentMetrics : List RequestMetrics
  sessionDirCreated : Bool
  sessionMetrics : List (String × SessionEntry)
deriving DecidableEq

/-- JS `Map.prototype.set`: update an existing key in place, append a
missing key. -/
def mapSet {K V : Type} [DecidableEq K] : List (K × V) → K → V → List (K × V)
  | [], k, v => [(k, v)]
  | p :: rest, k, v => if p.1 = k then (k, v) :: rest else p :: mapSet rest k v

/-- Callback `JsonReporter.onMetricsCollected`: store the forwarded metrics list. -/
def JsonReporter.onMetricsCollected (r : ReporterState) (metrics : List RequestMetrics) :
    ReporterState :=
  { r with currentMetrics := metrics }

/-- Helper `JsonReporter.ensureSessionDir`: create the session directory (and
write its README) on first use. -/
def JsonReporter.ensureSessionDir (r : ReporterState) : ReporterState × List WriteEvent :=
  if r.sessionDirCreated then (r, [])
  else ({ r with sessionDirCreated := true }, [.readme])

/-- Callback `JsonReporter.onTestComplete` (`src/reporters/json-reporter.ts`
lines 134-215): with no current metrics, return at once; otherwise
ensure the session directory, record the current test in the session
map, and write the metrics file, the summary file and (via
`generateSessionSummary`) the session summary file. -/
def JsonReporter.onTestComplete (r : ReporterState) (summary : MetricsSummary) :
    ReporterState × List WriteEvent :=
  if r.currentMetrics.length = 0 then (r, [])
  else
    let step := JsonReporter.ensureSessionDir r
    let r2 := { step.1 with
      sessionMetrics :=
        mapSet step.1.sessionMetrics r.currentTestName ⟨r.currentMetrics, summary⟩ }
    (r2, step.2 ++ [.metricsFile r.currentTestName, .summaryFile r.currentTestName,
                    .sessionSummaryFile])

/-- The full `Symphony.getSummary` step as the source executes it (`src/symphony.ts`
lines 223-260): compute the summary from the tracker's metrics, forward
it to the reporter via `onTestComplete`, and return it.  The result
records the returned summary, the tracker's metrics list after the call
(the source only reads `this.metrics` here), the reporter state after
the call, and the attempted file writes. -/
def symphonyGetSummary (metrics : List RequestMetrics) (r : ReporterState) :
    MetricsSummary × List RequestMetrics × ReporterState × List WriteEvent :=
  let s := getSummary metrics
  let step := JsonReporter.onTestComplete r s
  (s, metrics, step.1, step.2)

/-! ## Unfolding lemmas for the summary fold -/

theorem summaryStep_pos (acc : MetricsSummary × ℕ) (m : RequestMetrics)
    (h : isCompleted m) :
    summaryStep acc m =
      ({ acc.1 with
          averageDuration := acc.1.averageDuration + m.duration
          minDuration := acc.1.minDuration.min (.fin m.duration)
          maxDuration := Max.max acc.1.maxDuration m.duration
          requestsByStatus := acc.1.requestsByStatus.incr m.status
          requestsByMethod := acc.1.requestsByMethod.incr m.method },
        acc.2 + 1) := by
  simp [summaryStep, h]

theorem summaryStep_skip (acc : MetricsSummary × ℕ) (m : RequestMetrics)
    (h : ¬ isCompleted m) : summaryStep acc m = acc := by
  simp [summaryStep, h]

theorem completedDurations_cons_pos (m : RequestMetrics) (l : List RequestMetrics)
    (h : isCompleted m) :
    completedDurations (m :: l) = m.duration :: completedDurations l := by
  simp [completedDurations, List.filter_cons, h]

theorem completedDurations_cons_skip (m : RequestMetrics) (l : List RequestMetrics)
    (h : ¬ isCompleted m) :
    completedDurations (m :: l) = completedDurations l := by
  simp [completedDurations, List.filter_cons, h]

theorem summaryFold_snd (l : List RequestMetrics) (s : MetricsSummary) (c : ℕ) :
    (l.foldl summaryStep (s, c)).2 = c + completedCount l := by
  induction l generalizing s c with
  | nil => simp [completedCount]
  | cons m rest ih =>
    by_cases h : isCompleted m
    · rw [List.foldl_cons, summaryStep_pos _ _ h, ih]
      simp [completedCount, List.filter_cons, h]
      omega
    · rw [List.foldl_cons, summaryStep_skip _ _ h, ih]
      simp [completedCount, List.filter_cons, h]

theorem summaryFold_totalRequests (l : List RequestMetrics) (s : MetricsSummary) (c : ℕ) :
    (l.foldl summaryStep (s, c)).1.totalRequests = s.totalRequests := by
  induction l generalizing s c with
  | nil => rfl
  | cons m rest ih =>
    by_cases h : isCompleted m
    · rw [List.foldl_cons, summaryStep_pos _ _ h, ih]
    · rw [List.foldl_cons, summaryStep_skip _ _ h, ih]

theorem summaryFold_avg (l : List RequestMetrics) (s : MetricsSummary) (c : ℕ) :
    (l.foldl summaryStep (s, c)).1.averageDuration
      = s.averageDuration + (completedDurations l).sum := by
  induction l generalizing s c with
  | nil => simp [completedDurations]
  | cons m rest ih =>
    by_cases h : isCompleted m
    · rw [List.foldl_cons, summaryStep_pos _ _ h, ih, completedDurations_cons_pos _ _ h]
      simp [add_assoc]
    · rw [List.foldl_cons, summaryStep_skip _ _ h, ih, completedDurations_cons_skip _ _ h]

theorem summaryFold_min (l : List RequestMetrics) (s : MetricsSummary) (c : ℕ) :
    (l.foldl summaryStep (s, c)).1.minDuration
      = (completedDurations l).foldl (fun a d => a.min (.fin d)) s.minDuration := by
  induction l generalizing s c with
  | nil => simp [completedDurations]
  | cons m rest ih =>
    by_cases h : isCompleted m
    · rw [List.foldl_cons, summaryStep_pos _ _ h, ih, completedDurations_cons_pos _ _ h]
      rfl
    · rw [List.foldl_cons, summaryStep_skip _ _ h, ih, completedDurations_cons_skip _ _ h]

theorem summaryFold_max (l : List RequestMetrics) (s : MetricsSummary) (c : ℕ) :
    (l.foldl summaryStep (s, c)).1.maxDuration
      = (completedDurations l).foldl Max.max s.maxDuration := by
  induction l generalizing s c with
  | nil => simp [completedDurations]
  | cons m rest ih =>
    by_cases h : isCompleted m
    · rw [List.foldl_cons, summaryStep_pos _ _ h, ih, completedDurations_cons_pos _ _ h]
      rfl
    · rw [List.foldl_cons, summaryStep_skip _ _ h, ih, completedDurations_cons_skip _ _ h]

theorem summaryFold_status (l : List RequestMetrics) (s : MetricsSummary) (c : ℕ) :
    (l.foldl summaryStep (s, c)).1.requestsByStatus
      = (l.filter isCompleted).foldl (fun mm r => CountMap.incr mm r.status) s.requestsByStatus := by
  induction l generalizing s c with
  | nil => rfl
  | cons m rest ih =>
    by_cases h : isCompleted m
    · rw [List.foldl_cons, summaryStep_pos _ _ h, ih]
      simp [List.filter_cons, h]
    · rw [List.foldl_cons, summaryStep_skip _ _ h, ih]
      simp [List.filter_cons, h]

theorem summaryFold_method (l : List RequestMetrics) (s : MetricsSummary) (c : ℕ) :
    (l.foldl summaryStep (s, c)).1.requestsByMethod
      = (l.filter isCompleted).foldl (fun mm r => CountMap.incr mm r.method) s.requestsByMethod := by
  induction l generalizing s c with
  | nil => rfl
  | cons m rest ih =>
    by_cases h : isCompleted m
    · rw [List.foldl_cons, summaryStep_pos _ _ h, ih]
      simp [List.filter_cons, h]
    · rw [List.foldl_cons, summaryStep_skip _ _ h, ih]
      simp [List.filter_cons, h]

/-! ## Field characterisations of `getSummary` -/

theorem getSummary_totalRequests (l : List RequestMetrics) :
    (getSummary l).totalRequests = l.length := by
  simp only [getSummary]
  split <;> simp [summaryFold_totalRequests]

theorem getSummary_minDuration (l : List RequestMetrics) :
    (getSummary l).minDuration
      = (completedDurations l).foldl (fun a d => a.min (.fin d)) .inf := by
  simp only [getSummary]
  split <;> simp [summaryFold_min]

theorem getSummary_maxDuration (l : List RequestMetrics) :
    (getSummary l).maxDuration = (completedDurations l).foldl Max.max 0 := by
  simp only [getSummary]
  split <;> simp [summaryFold_max]

theorem getSummary_requestsByStatus (l : List RequestMetrics) :
    (getSummary l).requestsByStatus
      = (l.filter isCompleted).foldl (fun mm r => CountMap.incr mm r.status) [] := by
  simp only [getSummary]
  split <;> simp [summaryFold_status]

theorem getSummary_requestsByMethod (l : List RequestMetrics) :
    (getSummary l).requestsByMethod
      = (l.filter isCompleted).foldl (fun mm r => CountMap.incr mm r.method) [] := by
  simp only [getSummary]
  split <;> simp [summaryFold_method]

theorem getSummary_averageDuration (l : List RequestMetrics) :
    (getSummary l).averageDuration
      = if 0 < completedCount l
        then ((jsRound ((completedDurations l).sum / (completedCount l : ℚ)) : ℤ) : ℚ)
        else 0 := by
  simp only [getSummary]
  rw [summaryFold_snd]
  simp only [Nat.zero_add]
  split
  · simp [summaryFold_avg, summaryFold_snd, *]
  · have h0 : l.filter isCompleted = [] := by
      have hc : completedCount l = 0 := by omega
      exact List.length_eq_zero.mp hc
    simp [summaryFold_avg, completedDurations, h0]

/-! ## Folded minima and maxima over rationals -/

theorem foldl_min_le_init (ds : List ℚ) (a : ℚ) : ds.foldl Min.min a ≤ a := by
  induction ds generalizing a with
  | nil => simp
  | cons d rest ih => exact le_trans (ih _) (min_le_left a d)

theorem foldl_min_le_mem (ds : List ℚ) (a : ℚ) : ∀ d ∈ ds, ds.foldl Min.min a ≤ d := by
  induction ds generalizing a with
  | nil => intro d hd; cases hd
  | cons d rest ih =>
    intro x hx
    rcases List.mem_cons.mp hx with h | h
    · subst h
      exact le_trans (foldl_min_le_init rest _) (min_le_right a x)
    · exact ih _ x h

theorem foldl_min_mem_or_init (ds : List ℚ) (a : ℚ) :
    ds.foldl Min.min a = a ∨ ds.foldl Min.min a ∈ ds := by
  induction ds generalizing a with
  | nil => exact Or.inl rfl
  | cons d rest ih =>
    rcases ih (Min.min a d) with h | h
    · rcases min_choice a d with h2 | h2
      · exact Or.inl (by rw [List.foldl_cons, h, h2])
      · refine Or.inr ?_
        rw [List.foldl_cons, h, h2]
        exact List.mem_cons_self _ _
    · exact Or.inr (List.mem_cons_of_mem _ (by rw [List.foldl_cons]; exact h))

theorem foldl_max_init_le (ds : List ℚ) (a : ℚ) : a ≤ ds.foldl Max.max a := by
  induction ds generalizing a with
  | nil => simp
  | cons d rest ih => exact le_trans (le_max_left a d) (ih _)

theorem foldl_max_mem_le (ds : List ℚ) (a : ℚ) : ∀ d ∈ ds, d ≤ ds.foldl Max.max a := by
  induction ds generalizing a with
  | nil => intro d hd; cases hd
  | cons d rest ih =>
    intro x hx
    rcases List.mem_cons.mp hx with h | h
    · subst h
      exact le_trans (le_max_right a x) (foldl_max_init_le rest _)
    · exact ih _ x h

theorem foldl_max_mem_or_init (ds : List ℚ) (a : ℚ) :
    ds.foldl Max.max a = a ∨ ds.foldl Max.max a ∈ ds := by
  induction ds generalizing a with
  | nil => exact Or.inl rfl
  | cons d rest ih =>
    rcases ih (Max.max a d) with h | h
    · rcases max_choice a d with h2 | h2
      · exact Or.inl (by rw [List.foldl_cons, h, h2])
      · refine Or.inr ?_
        rw [List.foldl_cons, h, h2]
        exact List.mem_cons_self _ _
    · exact Or.inr (List.mem_cons_of_mem _ (by rw [List.foldl_cons]; exact h))

theorem foldl_max_zero_spec (ds : List ℚ) (hne : ds ≠ []) (hpos : ∀ d ∈ ds, 0 < d) :
    ds.foldl Max.max 0 ∈ ds ∧ ∀ d ∈ ds, d ≤ ds.foldl Max.max 0 := by
  refine ⟨?_, foldl_max_mem_le ds 0⟩
  rcases foldl_max_mem_or_init ds 0 with h | h
  · exfalso
    cases ds with
    | nil => exact hne rfl
    | cons d rest =>
      have hd := foldl_max_mem_le (d :: rest) 0 d (List.mem_cons_self _ _)
      rw [h] at hd
      exact absurd hd (not_le.mpr (hpos d (List.mem_cons_self _ _)))
  · exact h

/-! ## The JS `Math.min` fold with the `Infinity` sentinel -/

theorem jnumFoldMin_fin (ds : List ℚ) (q : ℚ) :
    ds.foldl (fun a d => JNum.min a (.fin d)) (.fin q) = .fin (ds.foldl Min.min q) := by
  induction ds generalizing q with
  | nil => rfl
  | cons d rest ih =>
    simp only [List.foldl_cons, JNum.min]
    exact ih _

theorem jnumFoldMin_spec (ds : List ℚ) (h : ds ≠ []) :
    ∃ q, ds.foldl (fun a d => JNum.min a (.fin d)) .inf = .fin q
      ∧ q ∈ ds ∧ ∀ d ∈ ds, q ≤ d := by
  cases ds with
  | nil => exact absurd rfl h
  | cons d rest =>
    refine ⟨rest.foldl Min.min d, ?_, ?_, ?_⟩
    · simp only [List.foldl_cons, JNum.min]
      exact jnumFoldMin_fin rest d
    · rcases foldl_min_mem_or_init rest d with h2 | h2
      · rw [h2]; exact List.mem_cons_self _ _
      · exact List.mem_cons_of_mem _ h2
    · intro x hx
      rcases List.mem_cons.mp hx with h2 | h2
      · subst h2
        exact foldl_min_le_init rest x
      · exact foldl_min_le_mem rest d x h2

theorem completedDurations_pos (l : List RequestMetrics) :
    ∀ d ∈ completedDurations l, 0 < d := by
  intro d hd
  rcases List.mem_map.mp hd with ⟨m, hm, rfl⟩
  have h2 := (List.mem_filter.mp hm).2
  simp only [isCompleted, decide_eq_true_eq] at h2
  exact h2

theorem completedDurations_length (l : List RequestMetrics) :
    (completedDurations l).length = completedCount l := by
  simp [completedDurations, completedCount]

/-! ## Order lemmas for `JNum` -/

theorem JNum.le_of_fin_le {a b : ℚ} (h : a ≤ b) : (JNum.fin a).le (.fin b) = true := by
  simp [JNum.le, h]

theorem JNum.minChoice (a b : JNum) : a.min b = a ∨ a.min b = b := by
  cases a with
  | inf => exact Or.inr rfl
  | fin qa =>
    cases b with
    | inf => exact Or.inl rfl
    | fin qb =>
      rcases min_choice qa qb with h | h
      · exact Or.inl (by simp [JNum.min, h])
      · exact Or.inr (by simp [JNum.min, h])

theorem JNum.minLeLeft (a b : JNum) : (a.min b).le a = true := by
  cases a <;> cases b <;> simp [JNum.min, JNum.le]

theorem JNum.minLeRight (a b : JNum) : (a.min b).le b = true := by
  cases a <;> cases b <;> simp [JNum.min, JNum.le]

theorem JNum.leTrans {a b c : JNum} (h1 : a.le b = true) (h2 : b.le c = true) :
    a.le c = true := by
  cases a <;> cases b <;> cases c <;> simp_all [JNum.le]
  exact h1.trans h2

theorem JNum.finiteOfLeFin {a : JNum} {q : ℚ} (h : a.le (.fin q) = true) :
    a.isFinite = true := by
  cases a <;> simp_all [JNum.le, JNum.isFinite]

theorem jnumListFoldMin_le_init (xs : List JNum) (a : JNum) :
    (xs.foldl JNum.min a).le a = true := by
  induction xs generalizing a with
  | nil => cases a <;> simp [JNum.le]
  | cons x rest ih =>
    exact JNum.leTrans (ih _) (JNum.minLeLeft a x)

theorem jnumListFoldMin_le_mem (xs : List JNum) (a : JNum) :
    ∀ x ∈ xs, (xs.foldl JNum.min a).le x = true := by
  induction xs generalizing a with
  | nil => intro x hx; cases hx
  | cons x rest ih =>
    intro y hy
    rcases List.mem_cons.mp hy with h | h
    · subst h
      exact JNum.leTrans (jnumListFoldMin_le_init rest _) (JNum.minLeRight a y)
    · exact ih _ y h

theorem jnumListFoldMin_mem_or_init (xs : List JNum) (a : JNum) :
    xs.foldl JNum.min a = a ∨ xs.foldl JNum.min a ∈ xs := by
  induction xs generalizing a with
  | nil => exact Or.inl rfl
  | cons x rest ih =>
    rcases ih (JNum.min a x) with h | h
    · rcases JNum.minChoice a x with h2 | h2
      · exact Or.inl (by rw [List.foldl_cons, h, h2])
      · refine Or.inr ?_
        rw [List.foldl_cons, h, h2]
        exact List.mem_cons_self _ _
    · exact Or.inr (List.mem_cons_of_mem _ (by rw [List.foldl_cons]; exact h))

/-! ## Counter-map lemmas -/

theorem CountMap.get_incrBy {K : Type} [DecidableEq K] (m : CountMap K) (k k' : K) (c : ℕ) :
    (m.incrBy k c).get k' = m.get k' + if k = k' then c else 0 := by
  induction m with
  | nil =>
    by_cases h : k = k' <;> simp [CountMap.incrBy, CountMap.get, h]
  | cons p rest ih =>
    by_cases h1 : p.1 = k
    · by_cases h2 : p.1 = k'
      · have hk : k = k' := h1 ▸ h2
        simp [CountMap.incrBy, CountMap.get, h1, h2, hk]
      · have hk : ¬ k = k' := fun hkk => h2 (h1.trans hkk)
        simp [CountMap.incrBy, CountMap.get, h1, h2, hk]
    · by_cases h2 : p.1 = k'
      · have hk : ¬ k = k' := fun hkk => h1 (h2.trans hkk.symm)
        have hk2 : ¬ k' = k := fun hkk => hk hkk.symm
        simp [CountMap.incrBy, CountMap.get, h1, h2, hk, hk2]
      · simp [CountMap.incrBy, CountMap.get, h1, h2, ih]

theorem CountMap.total_incrBy {K : Type} [DecidableEq K] (m : CountMap K) (k : K) (c : ℕ) :
    (m.incrBy k c).total = m.total + c := by
  induction m with
  | nil => simp [CountMap.incrBy, CountMap.total]
  | cons p rest ih =>
    by_cases h : p.1 = k
    · simp [CountMap.incrBy, CountMap.total, h]
      omega
    · simp only [CountMap.incrBy, if_neg h]
      simp only [CountMap.total, List.map_cons, List.sum_cons] at ih ⊢
      omega

theorem CountMap.get_addAll {K : Type} [DecidableEq K] (m src : CountMap K) (k : K) :
    (m.addAll src).get k = m.get k + src.weight k := by
  induction src generalizing m with
  | nil => simp [CountMap.addAll, CountMap.weight]
  | cons p rest ih =>
    simp only [CountMap.addAll, List.foldl_cons] at ih ⊢
    rw [ih, CountMap.get_incrBy]
    simp only [CountMap.weight, List.map_cons, List.sum_cons]
    by_cases h : p.1 = k
    · simp [h]
      omega
    · simp [h]

theorem CountMap.weight_zero_of_no_key {K : Type} [DecidableEq K] (m : CountMap K) (k : K)
    (h : ∀ p ∈ m, p.1 ≠ k) : m.weight k = 0 := by
  induction m with
  | nil => rfl
  | cons p rest ih =>
    simp only [CountMap.weight, List.map_cons, List.sum_cons]
    rw [if_neg (h p (List.mem_cons_self _ _))]
    simpa [CountMap.weight] using ih (fun q hq => h q (List.mem_cons_of_mem _ hq))

theorem CountMap.weight_eq_get {K : Type} [DecidableEq K] (m : CountMap K) (k : K)
    (h : (m.map Prod.fst).Nodup) : m.weight k = m.get k := by
  induction m with
  | nil => rfl
  | cons p rest ih =>
    simp only [List.map_cons, List.nodup_cons] at h
    simp only [CountMap.weight, List.map_cons, List.sum_cons, CountMap.get]
    by_cases hp : p.1 = k
    · rw [if_pos hp, if_pos hp]
      have hz : CountMap.weight rest k = 0 := by
        refine CountMap.weight_zero_of_no_key rest k (fun q hq hqk => ?_)
        exact h.1 (hp ▸ hqk ▸ List.mem_map_of_mem Prod.fst hq)
      simpa [CountMap.weight] using hz
    · rw [if_neg hp, if_neg hp]
      simpa [CountMap.weight] using ih h.2

theorem CountMap.total_foldl_incr {K : Type} [DecidableEq K]
    (l : List RequestMetrics) (f : RequestMetrics → K) (m : CountMap K) :
    (l.foldl (fun mm r => CountMap.incr mm (f r)) m).total = m.total + l.length := by
  induction l generalizing m with
  | nil => simp
  | cons r rest ih =>
    rw [List.foldl_cons, ih]
    simp only [CountMap.incr, CountMap.total_incrBy, List.length_cons]
    omega

/-! ## Unfolding lemmas for the session fold -/

theorem sessionStep_fst (acc : SessionSummary × ℚ × ℕ) (e : String × SessionEntry) :
    (sessionStep acc e).1 = { acc.1 with
      totalRequests := acc.1.totalRequests + e.2.summary.totalRequests
      minDuration := acc.1.minDuration.min e.2.summary.minDuration
      maxDuration := Max.max acc.1.maxDuration e.2.summary.maxDuration
      requestsByStatus := acc.1.requestsByStatus.addAll e.2.summary.requestsByStatus
      requestsByMethod := acc.1.requestsByMethod.addAll e.2.summary.requestsByMethod
      testResults := acc.1.testResults ++
        [{ testName := e.1
           totalRequests := e.2.summary.totalRequests
           averageDuration := e.2.summary.averageDuration
           minDuration := e.2.summary.minDuration
           maxDuration := e.2.summary.maxDuration
           requestsByStatus := e.2.summary.requestsByStatus
           requestsByMethod := e.2.summary.requestsByMethod }] } := by
  simp only [sessionStep]
  split <;> rfl

theorem sessionFold_totalTests (entries : List (String × SessionEntry))
    (acc : SessionSummary × ℚ × ℕ) :
    (entries.foldl sessionStep acc).1.totalTests = acc.1.totalTests := by
  induction entries generalizing acc with
  | nil => rfl
  | cons e rest ih =>
    rw [List.foldl_cons, ih, sessionStep_fst]

theorem sessionFold_totalRequests (entries : List (String × SessionEntry))
    (acc : SessionSummary × ℚ × ℕ) :
    (entries.foldl sessionStep acc).1.totalRequests
      = acc.1.totalRequests + (entries.map (fun e => e.2.summary.totalRequests)).sum := by
  induction entries generalizing acc with
  | nil => simp
  | cons e rest ih =>
    rw [List.foldl_cons, ih, sessionStep_fst]
    simp [add_assoc]

theorem sessionFold_min (entries : List (String × SessionEntry))
    (acc : SessionSummary × ℚ × ℕ) :
    (entries.foldl sessionStep acc).1.minDuration
      = (entries.map (fun e => e.2.summary.minDuration)).foldl JNum.min acc.1.minDuration := by
  induction entries generalizing acc with
  | nil => rfl
  | cons e rest ih =>
    rw [List.foldl_cons, ih, sessionStep_fst]
    simp

theorem sessionFold_max (entries : List (String × SessionEntry))
    (acc : SessionSummary × ℚ × ℕ) :
    (entries.foldl sessionStep acc).1.maxDuration
      = (entries.map (fun e => e.2.summary.maxDuration)).foldl Max.max acc.1.maxDuration := by
  induction entries generalizing acc with
  | nil => rfl
  | cons e rest ih =>
    rw [List.foldl_cons, ih, sessionStep_fst]
    simp

theorem sessionFold_status (entries : List (String × SessionEntry))
    (acc : SessionSummary × ℚ × ℕ) :
    (entries.foldl sessionStep acc).1.requestsByStatus
      = entries.foldl (fun mm e => mm.addAll e.2.summary.requestsByStatus)
          acc.1.requestsByStatus := by
  induction entries generalizing acc with
  | nil => rfl
  | cons e rest ih =>
    rw [List.foldl_cons, ih, sessionStep_fst, List.foldl_cons]

theorem sessionFold_method (entries : List (String × SessionEntry))
    (acc : SessionSummary × ℚ × ℕ) :
    (entries.foldl sessionStep acc).1.requestsByMethod
      = entries.foldl (fun mm e => mm.addAll e.2.summary.requestsByMethod)
          acc.1.requestsByMethod := by
  induction entries generalizing acc with
  | nil => rfl
  | cons e rest ih =>
    rw [List.foldl_cons, ih, sessionStep_fst, List.foldl_cons]

theorem get_foldl_addAll {K : Type} [DecidableEq K] {α : Type}
    (l : List α) (f : α → CountMap K) (m : CountMap K) (k : K) :
    ((l.foldl (fun mm e => mm.addAll (f e)) m).get k)
      = m.get k + (l.map (fun e => (f e).weight k)).sum := by
  induction l generalizing m with
  | nil => simp
  | cons e rest ih =>
    rw [List.foldl_cons, ih, CountMap.get_addAll]
    simp [add_assoc]

/-! ## Field characterisations of `generateSessionSummary` -/

theorem genSession_totalTests (entries : List (String × SessionEntry)) :
    (generateSessionSummary entries).totalTests = entries.length := by
  simp only [generateSessionSummary]
  split <;> simp [sessionFold_totalTests]

theorem genSession_totalRequests (entries : List (String × SessionEntry)) :
    (generateSessionSummary entries).totalRequests
      = (entries.map (fun e => e.2.summary.totalRequests)).sum := by
  simp only [generateSessionSummary]
  split <;> simp [sessionFold_totalRequests]

theorem genSession_minDuration (entries : List (String × SessionEntry)) :
    (generateSessionSummary entries).minDuration
      = (entries.map (fun e => e.2.summary.minDuration)).foldl JNum.min .inf := by
  simp only [generateSessionSummary]
  split <;> simp [sessionFold_min]

theorem genSession_status_get (entries : List (String × SessionEntry)) (k : ℤ) :
    (generateSessionSummary entries).requestsByStatus.get k
      = (entries.map (fun e => e.2.summary.requestsByStatus.weight k)).sum := by
  simp only [generateSessionSummary]
  split <;>
    simp [sessionFold_status, CountMap.get,
      get_foldl_addAll entries (fun e => e.2.summary.requestsByStatus)]

theorem genSession_method_get (entries : List (String × SessionEntry)) (k : String) :
    (generateSessionSummary entries).requestsByMethod.get k
      = (entries.map (fun e => e.2.summary.requestsByMethod.weight k)).sum := by
  simp only [generateSessionSummary]
  split <;>
    simp [sessionFold_method, CountMap.get,
      get_foldl_addAll entries (fun e => e.2.summary.requestsByMethod)]

/-! ## Aggregation helpers shared by the claims -/

/-- Agreement of two summaries on everything except `totalRequests`:
the five aggregate fields computed from completed records. -/
def sameAggregates (s t : MetricsSummary) : Prop :=
  s.averageDuration = t.averageDuration
  ∧ s.minDuration = t.minDuration
  ∧ s.maxDuration = t.maxDuration
  ∧ s.requestsByStatus = t.requestsByStatus
  ∧ s.requestsByMethod = t.requestsByMethod

theorem filter_isCompleted_idem (l : List RequestMetrics) :
    (l.filter isCompleted).filter isCompleted = l.filter isCompleted :=
  List.filter_eq_self.mpr (fun _ ha => (List.mem_filter.mp ha).2)

theorem sameAggregates_of_filter_eq {l l' : List RequestMetrics}
    (h : l.filter isCompleted = l'.filter isCompleted) :
    sameAggregates (getSummary l) (getSummary l') := by
  have hd : completedDurations l = completedDurations l' := by
    rw [completedDurations, h, completedDurations]
  have hc : completedCount l = completedCount l' := by
    rw [completedCount, h, completedCount]
  refine ⟨?_, ?_, ?_, ?_, ?_⟩
  · rw [getSummary_averageDuration, getSummary_averageDuration, hd, hc]
  · rw [getSummary_minDuration, getSummary_minDuration, hd]
  · rw [getSummary_maxDuration, getSummary_maxDuration, hd]
  · rw [getSummary_requestsByStatus, getSummary_requestsByStatus, h]
  · rw [getSummary_requestsByMethod, getSummary_requestsByMethod, h]

theorem isCompleted_newRecord (req : RequestEvent) :
    isCompleted (newRecord req) = false := by
  simp [isCompleted, newRecord]

/-! ## Concrete fixtures used by witnesses and counterexamples -/

/-- An all-zero timing detail, for concrete record literals. -/
def zeroTimingDetail : TimingDetail :=
  ⟨0, 0, 0, 0, 0, 0, 0, 0, 0, 0⟩

/-- A Playwright timing with given start and response end. -/
def pwTimingAt (s e : ℚ) : PwTiming :=
  { startTime := s, domainLookupStart := 0, domainLookupEnd := 0, connectStart := 0,
    connectEnd := 0, secureConnectionStart := 0, requestStart := 0,
    responseStart := 0, responseEnd := e }

/-- A completed metric record with the given url, duration and status. -/
def wRec (u : String) (d : ℚ) (st : ℤ) : RequestMetrics :=
  { url := u, method := "GET", startTime := 0, endTime := d, duration := d,
    status := st, requestSize := 0, responseSize := 0, headers := [],
    timing := zeroTimingDetail }

/-- A completed record for url `a`: duration 10, status 200. -/
def wRecordA : RequestMetrics := wRec "a" 10 200

/-- A response event for url `a` with different timing and status than
the one that completed `wRecordA`. -/
def wRespA : ResponseEvent :=
  { url := "a", method := "GET", timing := pwTimingAt 0 25, status := 404,
    postDataLen := none, contentLength := none }

/-- A response event for url `b`, matching no record of `[wRecordA]`. -/
def wRespB : ResponseEvent :=
  { url := "b", method := "GET", timing := pwTimingAt 0 20, status := 404,
    postDataLen := none, contentLength := none }

/-! ## Claims about `getSummary` -/

/-- Claim C1: for every metric list, `getSummary` reports `totalRequests`
as the size of the whole unfiltered list, while the five aggregate
fields are computed only from completed records (`duration > 0`): they
agree with the aggregates of the completed-only sublist, and a record
created by `trackRequestStart` but never resolved (still pending, with
`duration = 0`) contributes to none of the breakdowns or duration
statistics wherever it sits in the list. -/
theorem getSummary_totalUnfiltered_aggregatesCompleted
    (l : List RequestMetrics) (req : RequestEvent) (l1 l2 : List RequestMetrics) :
    (getSummary l).totalRequests = l.length
    ∧ sameAggregates (getSummary l) (getSummary (l.filter isCompleted))
    ∧ sameAggregates (getSummary (l1 ++ newRecord req :: l2)) (getSummary (l1 ++ l2)) := by
  refine ⟨getSummary_totalRequests l, ?_, ?_⟩
  · exact sameAggregates_of_filter_eq (filter_isCompleted_idem l).symm
  · refine sameAggregates_of_filter_eq ?_
    simp [List.filter_append, List.filter_cons, isCompleted_newRecord req]

/-- Claim C3: summarizing the empty record collection returns exactly the
zero/sentinel summary (with the `Infinity` sentinel for `minDuration`)
and, being a total function reached through explicit guards, raises no
exception. -/
theorem getSummary_empty :
    getSummary [] =
      { totalRequests := 0, averageDuration := 0, minDuration := .inf,
        maxDuration := 0, requestsByStatus := [], requestsByMethod := [] } := by
  decide

/-- Claim C6: a response event whose identity (url and method) matches no
tracked record leaves the tracker state unchanged: no record is created
or modified, and (the function being total) no exception is raised. -/
theorem trackRequestEnd_unmatched (resp : ResponseEvent) (metrics : List RequestMetrics)
    (h : ∀ m ∈ metrics, ¬ (m.url = resp.url ∧ m.method = resp.method)) :
    trackRequestEnd resp metrics = metrics := by
  induction metrics with
  | nil => rfl
  | cons m rest ih =>
    simp only [trackRequestEnd]
    rw [if_neg (h m (List.mem_cons_self _ _)),
        ih (fun x hx => h x (List.mem_cons_of_mem _ hx))]

/-- Witness for C6: a response for url `b` against a tracker that only
holds a record for url `a` changes nothing. -/
theorem trackRequestEnd_unmatched_witness :
    (∀ m ∈ [wRecordA], ¬ (m.url = wRespB.url ∧ m.method = wRespB.method))
    ∧ trackRequestEnd wRespB [wRecordA] = [wRecordA] :=
  ⟨by decide, trackRequestEnd_unmatched wRespB [wRecordA] (by decide)⟩

/-- Claim C4 counterexample: `trackRequestEnd` does recompute an already
completed record.  `wRecordA` is completed (duration 10, status 200),
yet a later response event with the same identity but different timing
and status (`wRespA`) changes the record's fields. -/
theorem trackRequestEnd_recomputes_completed :
    isCompleted wRecordA = true ∧ trackRequestEnd wRespA [wRecordA] ≠ [wRecordA] := by
  decide

/-- Claim C4 (amended): a later response event for the same identity
recomputes the first matching record, overwriting its completion fields
with values derived from that event; consequently re-delivering the
same response event is idempotent, and only an event with different
timing, status or sizes changes a completed record. -/
theorem trackRequestEnd_idempotent (resp : ResponseEvent) (metrics : List RequestMetrics) :
    trackRequestEnd resp (trackRequestEnd resp metrics) = trackRequestEnd resp metrics := by
  induction metrics with
  | nil => rfl
  | cons m rest ih =>
    by_cases h : m.url = resp.url ∧ m.method = resp.method
    · simp only [trackRequestEnd, if_pos h]
      have h2 : (applyResponse m resp).url = resp.url
          ∧ (applyResponse m resp).method = resp.method := by
        simpa [applyResponse] using h
      simp only [trackRequestEnd, if_pos h2]
      rfl
    · simp only [trackRequestEnd, if_neg h]
      rw [ih]

/-! ## Rounding and averaging lemmas -/

theorem floor_half_rat : ⌊(1/2 : ℚ)⌋ = 0 := by
  norm_num

theorem jsRound_int_le {n : ℤ} {x : ℚ} (h : (n : ℚ) ≤ x) : n ≤ jsRound x := by
  have h2 : ⌊(n : ℚ) + 1/2⌋ ≤ ⌊x + 1/2⌋ := Int.floor_le_floor (by linarith)
  rw [Int.floor_int_add, floor_half_rat, add_zero] at h2
  exact h2

theorem jsRound_le_int {n : ℤ} {x : ℚ} (h : x ≤ (n : ℚ)) : jsRound x ≤ n := by
  have h2 : ⌊x + 1/2⌋ ≤ ⌊(n : ℚ) + 1/2⌋ := Int.floor_le_floor (by linarith)
  rw [Int.floor_int_add, floor_half_rat, add_zero] at h2
  exact h2

theorem length_mul_le_sum (ds : List ℚ) (q : ℚ) (h : ∀ d ∈ ds, q ≤ d) :
    (ds.length : ℚ) * q ≤ ds.sum := by
  induction ds with
  | nil => simp
  | cons d rest ih =>
    have h1 := h d (List.mem_cons_self _ _)
    have h2 := ih (fun x hx => h x (List.mem_cons_of_mem _ hx))
    have h3 : ((rest.length : ℚ) + 1) * q = (rest.length : ℚ) * q + q := by ring
    simp only [List.length_cons, List.sum_cons, Nat.cast_add, Nat.cast_one]
    linarith

theorem sum_le_length_mul (ds : List ℚ) (q : ℚ) (h : ∀ d ∈ ds, d ≤ q) :
    ds.sum ≤ (ds.length : ℚ) * q := by
  induction ds with
  | nil => simp
  | cons d rest ih =>
    have h1 := h d (List.mem_cons_self _ _)
    have h2 := ih (fun x hx => h x (List.mem_cons_of_mem _ hx))
    have h3 : ((rest.length : ℚ) + 1) * q = (rest.length : ℚ) * q + q := by ring
    simp only [List.length_cons, List.sum_cons, Nat.cast_add, Nat.cast_one]
    linarith

/-! ## Claim C2 -/

/-- Claim C2: with at least one completed record, `averageDuration` is the
sum of completed durations divided by their count, rounded to the
nearest integer millisecond (JS `Math.round`), and `minDuration` /
`maxDuration` are the least and greatest completed durations. -/
theorem getSummary_avg_min_max (l : List RequestMetrics) (h : 0 < completedCount l) :
    (getSummary l).averageDuration
        = ((jsRound ((completedDurations l).sum / (completedCount l : ℚ)) : ℤ) : ℚ)
    ∧ (∃ q, (getSummary l).minDuration = .fin q ∧ q ∈ completedDurations l
          ∧ ∀ d ∈ completedDurations l, q ≤ d)
    ∧ ((getSummary l).maxDuration ∈ completedDurations l
          ∧ ∀ d ∈ completedDurations l, d ≤ (getSummary l).maxDuration) := by
  have hne : completedDurations l ≠ [] := by
    intro h0
    have := completedDurations_length l
    rw [h0] at this
    simp at this
    omega
  refine ⟨?_, ?_, ?_⟩
  · rw [getSummary_averageDuration, if_pos h]
  · rw [getSummary_minDuration]
    exact jnumFoldMin_spec _ hne
  · rw [getSummary_maxDuration]
    exact foldl_max_zero_spec _ hne (completedDurations_pos l)

/-- Three completed records with durations 100, 200, 300 (Scenario B). -/
def wList3 : List RequestMetrics := [wRec "a" 100 200, wRec "b" 200 200, wRec "c" 300 200]

/-- Witness for C2 on Scenario B: average 200, min 100, max 300. -/
theorem getSummary_avg_min_max_witness :
    0 < completedCount wList3
    ∧ (getSummary wList3).averageDuration = 200
    ∧ (getSummary wList3).minDuration = .fin 100
    ∧ (getSummary wList3).maxDuration = 300 :=
  ⟨by decide,
   ((getSummary_avg_min_max wList3 (by decide)).1).trans (by
     norm_num [wList3, wRec, completedDurations, completedCount, isCompleted,
       List.filter, jsRound]),
   by decide, by decide⟩

/-! ## Claims C5 and C9: the reporter side of `getSummary` -/

/-- Reporter state before a test completes: the current metrics hold the
completed record for url `a`, no session directory yet, empty session map. -/
def wReporterA : ReporterState :=
  { currentTestName := "t", currentMetrics := [wRecordA],
    sessionDirCreated := false, sessionMetrics := [] }

/-- Claim C5 counterexample: computing the summary is not free of side
effects: one `getSummary` call on a tracker holding one completed
record mutates the reporter (session directory created, session map
extended) and attempts file writes. -/
theorem symphonyGetSummary_mutates_reporter :
    (symphonyGetSummary [wRecordA] wReporterA).2.2.1 ≠ wReporterA
    ∧ (symphonyGetSummary [wRecordA] wReporterA).2.2.2 ≠ [] := by
  decide

/-- Claim C5 (amended): the aggregation itself is pure — `getSummary`
leaves the tracker's record collection unchanged and its result is
determined by it alone — but each call also forwards the summary to the
reporter via `onTestComplete`, which, when the current metrics are
nonempty, records the current test in the session map and attempts file
writes; only with empty current metrics is the reporter left unchanged
with no writes. -/
theorem symphonyGetSummary_frame (metrics : List RequestMetrics) (r : ReporterState) :
    (symphonyGetSummary metrics r).2.1 = metrics
    ∧ (symphonyGetSummary metrics r).1 = getSummary metrics
    ∧ (r.currentMetrics ≠ [] →
        (symphonyGetSummary metrics r).2.2.1.sessionMetrics
          = mapSet r.sessionMetrics r.currentTestName
              ⟨r.currentMetrics, getSummary metrics⟩)
    ∧ (r.currentMetrics = [] →
        (symphonyGetSummary metrics r).2.2.1 = r
        ∧ (symphonyGetSummary metrics r).2.2.2 = []) := by
  refine ⟨rfl, rfl, ?_, ?_⟩
  · intro h
    have hlen : ¬ r.currentMetrics.length = 0 := by
      simpa [List.length_eq_zero] using h
    simp only [symphonyGetSummary, JsonReporter.onTestComplete,
      JsonReporter.ensureSessionDir, if_neg hlen]
    by_cases hd : r.sessionDirCreated <;> simp [hd]
  · intro h
    have hlen : r.currentMetrics.length = 0 := by simp [h]
    simp [symphonyGetSummary, JsonReporter.onTestComplete, hlen]

/-- Witness for the amended C5 at a concrete reporter state. -/
theorem symphonyGetSummary_frame_witness :
    wReporterA.currentMetrics ≠ []
    ∧ (symphonyGetSummary [wRecordA] wReporterA).2.2.1.sessionMetrics
        = mapSet wReporterA.sessionMetrics wReporterA.currentTestName
            ⟨wReporterA.currentMetrics, getSummary [wRecordA]⟩ :=
  ⟨by decide, (symphonyGetSummary_frame [wRecordA] wReporterA).2.2.1 (by decide)⟩

/-- Reporter state with no collected metrics. -/
def wReporterEmpty : ReporterState :=
  { currentTestName := "t", currentMetrics := [],
    sessionDirCreated := false, sessionMetrics := [] }

/-- Claim C9: when the current metric collection is empty at test
completion, `onTestComplete` returns without recording anything: the
reporter state (in particular the session map) is unchanged, no file
write is attempted, and the session rollup is unaffected (same
`totalTests`). -/
theorem onTestComplete_empty_noop (r : ReporterState) (s : MetricsSummary)
    (h : r.currentMetrics = []) :
    JsonReporter.onTestComplete r s = (r, [])
    ∧ (JsonReporter.onTestComplete r s).1.sessionMetrics = r.sessionMetrics
    ∧ (generateSessionSummary (JsonReporter.onTestComplete r s).1.sessionMetrics).totalTests
        = (generateSessionSummary r.sessionMetrics).totalTests := by
  have h0 : JsonReporter.onTestComplete r s = (r, []) := by
    simp [JsonReporter.onTestComplete, h]
  exact ⟨h0, by rw [h0], by rw [h0]⟩

/-- Witness for C9 at a concrete empty reporter state. -/
theorem onTestComplete_empty_noop_witness :
    wReporterEmpty.currentMetrics = []
    ∧ JsonReporter.onTestComplete wReporterEmpty (getSummary []) = (wReporterEmpty, []) :=
  ⟨rfl, (onTestComplete_empty_noop wReporterEmpty (getSummary []) rfl).1⟩

/-! ## Claims C7 and C8: the session rollup -/

theorem sum_map_congr {α : Type} (l : List α) (f g : α → ℕ) (h : ∀ a ∈ l, f a = g a) :
    (l.map f).sum = (l.map g).sum := by
  induction l with
  | nil => rfl
  | cons a rest ih =>
    simp only [List.map_cons, List.sum_cons]
    rw [h a (List.mem_cons_self _ _), ih (fun x hx => h x (List.mem_cons_of_mem _ hx))]

/-- Claim C7: the session rollup is additive over the stored per-test
summaries: `totalRequests` is the sum of the per-test totals, the
status and method maps are the pointwise sums of the per-test maps, and
`totalTests` is the number of distinct test names recorded (the session
map keys, which JS `Map` keeps distinct). -/
theorem generateSessionSummary_additive (entries : List (String × SessionEntry))
    (k : ℤ) (km : String)
    (hnames : (entries.map Prod.fst).Nodup)
    (hmaps : ∀ e ∈ entries, (e.2.summary.requestsByStatus.map Prod.fst).Nodup
              ∧ (e.2.summary.requestsByMethod.map Prod.fst).Nodup) :
    (generateSessionSummary entries).totalRequests
        = (entries.map (fun e => e.2.summary.totalRequests)).sum
    ∧ (generateSessionSummary entries).requestsByStatus.get k
        = (entries.map (fun e => e.2.summary.requestsByStatus.get k)).sum
    ∧ (generateSessionSummary entries).requestsByMethod.get km
        = (entries.map (fun e => e.2.summary.requestsByMethod.get km)).sum
    ∧ (generateSessionSummary entries).totalTests
        = (entries.map Prod.fst).dedup.length := by
  refine ⟨genSession_totalRequests entries, ?_, ?_, ?_⟩
  · rw [genSession_status_get]
    exact sum_map_congr entries _ _
      (fun e he => CountMap.weight_eq_get _ _ (hmaps e he).1)
  · rw [genSession_method_get]
    exact sum_map_congr entries _ _
      (fun e he => CountMap.weight_eq_get _ _ (hmaps e he).2)
  · rw [genSession_totalTests, hnames.dedup, List.length_map]

/-- Per-test summary S1 of P4: 5 requests, status map `{200: 5}`. -/
def wSummary1 : MetricsSummary :=
  { totalRequests := 5, averageDuration := 0, minDuration := .inf, maxDuration := 0,
    requestsByStatus := [(200, 5)], requestsByMethod := [("GET", 5)] }

/-- Per-test summary S2 of P4: 3 requests, status map `{404: 3}`. -/
def wSummary2 : MetricsSummary :=
  { totalRequests := 3, averageDuration := 0, minDuration := .inf, maxDuration := 0,
    requestsByStatus := [(404, 3)], requestsByMethod := [("GET", 3)] }

/-- Session map holding the two tests of P4. -/
def wEntries : List (String × SessionEntry) :=
  [("t1", ⟨[], wSummary1⟩), ("t2", ⟨[], wSummary2⟩)]

/-- Witness for C7 on P4: totals 8, status `{200: 5, 404: 3}`, 2 tests. -/
theorem generateSessionSummary_additive_witness :
    (wEntries.map Prod.fst).Nodup
    ∧ (generateSessionSummary wEntries).totalRequests = 8
    ∧ (generateSessionSummary wEntries).requestsByStatus.get 200 = 5
    ∧ (generateSessionSummary wEntries).requestsByStatus.get 404 = 3
    ∧ (generateSessionSummary wEntries).requestsByMethod.get "GET" = 8
    ∧ (generateSessionSummary wEntries).totalTests = 2 :=
  ⟨by decide,
   (generateSessionSummary_additive wEntries 200 "GET" (by decide)
       (by decide)).1.trans (by decide),
   by decide, by decide, by decide, by decide⟩

/-- Claim C8: a sentinel (`Infinity`) per-test `minDuration` never
corrupts the session minimum: whenever some stored summary has a finite
`minDuration`, the session `minDuration` is finite, equals one of the
stored `minDuration`s, and is a lower bound of all of them — sentinel
entries are absorbed by `Math.min`. -/
theorem generateSessionSummary_min_ignores_sentinel
    (entries : List (String × SessionEntry))
    (h : ∃ e ∈ entries, e.2.summary.minDuration.isFinite = true) :
    (generateSessionSummary entries).minDuration.isFinite = true
    ∧ (∃ e ∈ entries,
        (generateSessionSummary entries).minDuration = e.2.summary.minDuration)
    ∧ ∀ e ∈ entries,
        (generateSessionSummary entries).minDuration.le e.2.summary.minDuration = true := by
  obtain ⟨e0, he0, hfin⟩ := h
  obtain ⟨q0, hq0⟩ : ∃ q, e0.2.summary.minDuration = .fin q := by
    cases hh : e0.2.summary.minDuration with
    | fin q => exact ⟨q, rfl⟩
    | inf => rw [hh] at hfin; simp [JNum.isFinite] at hfin
  have hmem0 : e0.2.summary.minDuration ∈ entries.map (fun e => e.2.summary.minDuration) :=
    List.mem_map_of_mem _ he0
  have hle : ∀ x ∈ entries.map (fun e => e.2.summary.minDuration),
      ((entries.map (fun e => e.2.summary.minDuration)).foldl JNum.min .inf).le x = true :=
    jnumListFoldMin_le_mem _ .inf
  have hfin2 : ((entries.map (fun e => e.2.summary.minDuration)).foldl
      JNum.min .inf).isFinite = true := by
    have h2 := hle _ hmem0
    rw [hq0] at h2
    exact JNum.finiteOfLeFin h2
  refine ⟨?_, ?_, ?_⟩
  · rw [genSession_minDuration]
    exact hfin2
  · rcases jnumListFoldMin_mem_or_init
        (entries.map (fun e => e.2.summary.minDuration)) .inf with hc | hc
    · rw [hc] at hfin2
      simp [JNum.isFinite] at hfin2
    · rcases List.mem_map.mp hc with ⟨e, he, heq⟩
      exact ⟨e, he, by rw [genSession_minDuration, ← heq]⟩
  · intro e he
    rw [genSession_minDuration]
    exact hle _ (List.mem_map_of_mem _ he)

/-- A per-test summary with one completed request of duration 50. -/
def wSummaryMin50 : MetricsSummary :=
  { totalRequests := 1, averageDuration := 50, minDuration := .fin 50, maxDuration := 50,
    requestsByStatus := [(200, 1)], requestsByMethod := [("GET", 1)] }

/-- Session map of Scenario D: one all-pending summary (sentinel min)
and one with a real minimum of 50. -/
def wEntriesMin : List (String × SessionEntry) :=
  [("t1", ⟨[], wSummary1⟩), ("t2", ⟨[], wSummaryMin50⟩)]

/-- Witness for C8 on Scenario D: the session min is 50, not `Infinity`. -/
theorem generateSessionSummary_min_ignores_sentinel_witness :
    (generateSessionSummary wEntriesMin).minDuration = .fin 50
    ∧ (generateSessionSummary wEntriesMin).minDuration.isFinite = true :=
  ⟨by decide,
   (generateSessionSummary_min_ignores_sentinel wEntriesMin (by decide)).1⟩

/-! ## Claim C10: internal consistency of a summary -/

/-- A completed record with fractional duration: half a millisecond. -/
def wRecHalf : RequestMetrics := wRec "a" (1/2) 200

/-- Claim C10 counterexample: for a single completed record of duration
1/2 ms, `Math.round` lifts `averageDuration` to 1, strictly above
`maxDuration = 1/2`: the chain
`minDuration ≤ averageDuration ≤ maxDuration` fails even though a
completed record exists. -/
theorem getSummary_avg_above_max :
    0 < completedCount [wRecHalf]
    ∧ (getSummary [wRecHalf]).maxDuration < (getSummary [wRecHalf]).averageDuration := by
  have hc : completedCount [wRecHalf] = 1 := by
    norm_num [completedCount, wRecHalf, wRec, isCompleted, List.filter]
  have hd : completedDurations [wRecHalf] = [1/2] := by
    norm_num [completedDurations, completedCount, wRecHalf, wRec, isCompleted, List.filter]
  refine ⟨by omega, ?_⟩
  rw [getSummary_averageDuration, getSummary_maxDuration, hd, hc,
      if_pos (by norm_num : (0:ℕ) < 1)]
  norm_num [jsRound]

/-- Claim C10 (amended): every summary is internally consistent in its
counts: the status counts and the method counts each sum to the number
of completed records, which is at most `totalRequests`; and the chain
`minDuration ≤ averageDuration ≤ maxDuration` holds whenever at least
one record completed and every completed duration is a whole number of
milliseconds.  (With fractional durations, rounding can push the
average outside the `[minDuration, maxDuration]` interval by up to half
a millisecond.) -/
theorem getSummary_internal_consistency (l : List RequestMetrics) :
    CountMap.total (getSummary l).requestsByStatus = completedCount l
    ∧ CountMap.total (getSummary l).requestsByMethod = completedCount l
    ∧ completedCount l ≤ (getSummary l).totalRequests
    ∧ ((∀ d ∈ completedDurations l, ∃ n : ℤ, d = (n : ℚ)) → 0 < completedCount l →
        (getSummary l).minDuration.le (.fin (getSummary l).averageDuration) = true
        ∧ (getSummary l).averageDuration ≤ (getSummary l).maxDuration) := by
  refine ⟨?_, ?_, ?_, ?_⟩
  · rw [getSummary_requestsByStatus, CountMap.total_foldl_incr]
    simp [CountMap.total, completedCount]
  · rw [getSummary_requestsByMethod, CountMap.total_foldl_incr]
    simp [CountMap.total, completedCount]
  · rw [getSummary_totalRequests]
    exact List.length_filter_le _ _
  · intro hint hpos
    have hne : completedDurations l ≠ [] := by
      intro h0
      have hl := completedDurations_length l
      rw [h0] at hl
      simp at hl
      omega
    obtain ⟨q, hq, hqmem, hqle⟩ := jnumFoldMin_spec (completedDurations l) hne
    obtain ⟨hMmem, hMle⟩ :=
      foldl_max_zero_spec (completedDurations l) hne (completedDurations_pos l)
    obtain ⟨nq, hnq⟩ := hint q hqmem
    obtain ⟨nM, hnM⟩ := hint _ hMmem
    have hlenpos : 0 < ((completedDurations l).length : ℚ) := by
      rw [completedDurations_length]
      exact_mod_cast hpos
    have hsumlo : ((completedDurations l).length : ℚ) * q ≤ (completedDurations l).sum :=
      length_mul_le_sum _ q hqle
    have hsumhi : (completedDurations l).sum
        ≤ ((completedDurations l).length : ℚ) * ((completedDurations l).foldl Max.max 0) :=
      sum_le_length_mul _ _ hMle
    have hmeanlo : (q : ℚ)
        ≤ (completedDurations l).sum / ((completedDurations l).length : ℚ) := by
      rw [le_div_iff₀ hlenpos, mul_comm]
      exact hsumlo
    have hmeanhi : (completedDurations l).sum / ((completedDurations l).length : ℚ)
        ≤ (completedDurations l).foldl Max.max 0 := by
      rw [div_le_iff₀ hlenpos, mul_comm]
      exact hsumhi
    have havg : (getSummary l).averageDuration
        = ((jsRound ((completedDurations l).sum / ((completedDurations l).length : ℚ)) : ℤ) : ℚ) := by
      rw [getSummary_averageDuration, if_pos hpos, completedDurations_length]
    constructor
    · rw [getSummary_minDuration, hq, havg]
      apply JNum.le_of_fin_le
      have h1 : nq ≤ jsRound ((completedDurations l).sum
          / ((completedDurations l).length : ℚ)) :=
        jsRound_int_le (by rw [← hnq]; exact hmeanlo)
      rw [hnq]
      exact_mod_cast h1
    · rw [havg, getSummary_maxDuration]
      have hmeanhi2 := hmeanhi
      rw [hnM] at hmeanhi2
      have h2 : jsRound ((completedDurations l).sum
          / ((completedDurations l).length : ℚ)) ≤ nM :=
        jsRound_le_int hmeanhi2
      rw [hnM]
      exact_mod_cast h2

theorem wList3_durations_integral :
    ∀ d ∈ completedDurations wList3, ∃ n : ℤ, d = (n : ℚ) := by
  have h3 : completedDurations wList3 = [100, 200, 300] := by decide
  rw [h3]
  intro d hd
  simp only [List.mem_cons, List.not_mem_nil, or_false] at hd
  rcases hd with rfl | rfl | rfl
  · exact ⟨100, by norm_num⟩
  · exact ⟨200, by norm_num⟩
  · exact ⟨300, by norm_num⟩

/-- Witness for the amended C10 on the Scenario B record list. -/
theorem getSummary_internal_consistency_witness :
    CountMap.total (getSummary wList3).requestsByStatus = completedCount wList3
    ∧ (getSummary wList3).minDuration.le (.fin (getSummary wList3).averageDuration) = true
    ∧ (getSummary wList3).averageDuration ≤ (getSummary wList3).maxDuration :=
  ⟨(getSummary_internal_consistency wList3).1,
   ((getSummary_internal_consistency wList3).2.2.2 wList3_durations_integral (by decide)).1,
   ((getSummary_internal_consistency wList3).2.2.2 wList3_durations_integral (by decide)).2⟩
